import Mathlib

/-!
Verification of the ATEMLogger core (atemlogger7.py): the timecode
arithmetic used for frame compensation, the EDL serializer, the HyperDeck
response parser, and the monitor loop's clip-boundary logic, embedded
shallowly in Lean.  Strings are modelled on their underlying character
lists; Python integers are modelled as `Int`; fallible operations return
`Option`.
-/

namespace ATEMLogger

/-! ## Decimal digits, Python-style integer parsing and formatting -/

/-- One decimal digit `d < 10` rendered as a character, as Python renders
non-negative integers digit by digit. -/
def digitToChar (d : Nat) : Char := Char.ofNat (48 + d)

/-- Decimal digits of `n` (most significant first), fuel-indexed so that
the definition is structurally recursive and computes inside the kernel.
`natDigitsAux fuel n` is the digit string of `n` whenever `n < fuel`. -/
def natDigitsAux : Nat → Nat → List Char
  | 0, _ => []
  | fuel + 1, n =>
    if n < 10 then [digitToChar n]
    else natDigitsAux fuel (n / 10) ++ [digitToChar (n % 10)]

/-- Decimal digit string of a natural number, as Python prints it. -/
def natToDigits (n : Nat) : List Char := natDigitsAux (n + 1) n

/-- Whitespace characters recognised by Python's str.strip. -/
def isPySpace (c : Char) : Bool :=
  c.toNat == 32 || c.toNat == 9 || c.toNat == 10 || c.toNat == 13 ||
    c.toNat == 11 || c.toNat == 12

/-- Python str.strip: drop leading and trailing whitespace. -/
def pyStrip (l : List Char) : List Char :=
  ((l.dropWhile isPySpace).reverse.dropWhile isPySpace).reverse

/-- A decimal digit character back to its value; `none` for non-digits. -/
def charToDigit (c : Char) : Option Nat :=
  if 48 ≤ c.toNat ∧ c.toNat ≤ 57 then some (c.toNat - 48) else none

/-- Fold a run of digit characters into a number; fails on a non-digit. -/
def parseDigitsAux : List Char → Nat → Option Nat
  | [], acc => some acc
  | c :: cs, acc =>
    match charToDigit c with
    | some d => parseDigitsAux cs (acc * 10 + d)
    | none => none

/-- A non-empty digit run to a natural number; the empty string fails, as
Python's int() does. -/
def parseNatDigits : List Char → Option Nat
  | [] => none
  | cs => parseDigitsAux cs 0

/-- Python's int() applied to a string: strip surrounding whitespace, read
an optional sign, then a non-empty run of decimal digits; every other
input raises ValueError, modelled as `none`. -/
def pyInt? (cs : List Char) : Option Int :=
  match pyStrip cs with
  | [] => none
  | c :: rest =>
    if c = '-' then (parseNatDigits rest).map (fun n => -(n : Int))
    else if c = '+' then (parseNatDigits rest).map (fun n => (n : Int))
    else (parseNatDigits (c :: rest)).map (fun n => (n : Int))

/-- Python's zero-padded integer formatting of a natural number to a
minimum width `w`; wider numbers keep all their digits. -/
def pyPadZeros (w n : Nat) : List Char :=
  List.replicate (w - (natToDigits n).length) '0' ++ natToDigits n

/-- The width-2 zero-padded rendering of an int used by the source's
format f-string; a negative value renders as a minus sign followed by its
digits, exactly as Python formats it at width 2. -/
def pyFormat02 (n : Int) : List Char :=
  if n < 0 then '-' :: natToDigits n.natAbs else pyPadZeros 2 n.toNat

/-! ## Timecode values, parsing and formatting (adjust_timecode) -/

/-- A parsed HH:MM:SS:FF timecode.  Fields are integers exactly as
Python's int() produces them: the source puts no bound on any field. -/
structure Timecode where
  hours : Int
  minutes : Int
  seconds : Int
  frames : Int
deriving DecidableEq

/-- Python str.split for a single-character separator, accumulator style;
empty pieces are kept, exactly as in Python. -/
def pySplitAux (sep : Char) : List Char → List Char → List (List Char)
  | [], acc => [acc.reverse]
  | c :: cs, acc =>
    if c = sep then acc.reverse :: pySplitAux sep cs []
    else pySplitAux sep cs (c :: acc)

/-- Python str.split on a single-character separator. -/
def pySplit (sep : Char) (l : List Char) : List (List Char) := pySplitAux sep l []

/-- The parse step of adjust_timecode: map(int, timecode.split(':'))
unpacked into exactly four fields.  `none` is the ValueError path that the
source's except branch catches. -/
def parseTimecode (s : String) : Option Timecode :=
  match pySplit ':' s.data with
  | [a, b, c, d] =>
    match pyInt? a, pyInt? b, pyInt? c, pyInt? d with
    | some h, some m, some se, some fr => some ⟨h, m, se, fr⟩
    | _, _, _, _ => none
  | _ => none

/-- The character list of the source's return f-string: each field
zero-padded to width 2 and joined with colons. -/
def formatChars (tc : Timecode) : List Char :=
  pyFormat02 tc.hours ++ ':' ::
    (pyFormat02 tc.minutes ++ ':' ::
      (pyFormat02 tc.seconds ++ ':' :: pyFormat02 tc.frames))

/-- The formatted timecode string returned by adjust_timecode. -/
def formatTimecode (tc : Timecode) : String := ⟨formatChars tc⟩

/-- The arithmetic body of adjust_timecode: add the compensation to the
frames field, then perform at most one carry each into seconds, minutes
and hours.  The source hard-codes 25 frames per second and uses single
if-subtractions, not division. -/
def adjustFields (tc : Timecode) (compensation_frames : Int) : Timecode :=
  let frames1 := tc.frames + compensation_frames
  let frames2 := if frames1 ≥ 25 then frames1 - 25 else frames1
  let seconds1 := if frames1 ≥ 25 then tc.seconds + 1 else tc.seconds
  let seconds2 := if seconds1 ≥ 60 then seconds1 - 60 else seconds1
  let minutes1 := if seconds1 ≥ 60 then tc.minutes + 1 else tc.minutes
  let minutes2 := if minutes1 ≥ 60 then minutes1 - 60 else minutes1
  let hours1 := if minutes1 ≥ 60 then tc.hours + 1 else tc.hours
  ⟨hours1, minutes2, seconds2, frames2⟩

/-- adjust_timecode from the source: parse the string, adjust the fields,
format the result; on any error (the except branch, reachable exactly when
parsing fails) return the original string unchanged. -/
def adjust_timecode (timecode : String) (compensation_frames : Int) : String :=
  match parseTimecode timecode with
  | some tc => formatTimecode (adjustFields tc compensation_frames)
  | none => timecode

/-- The specification's carry rule for adjust (spec §4.1, claim C1),
stated from the spec's words for comparison with `adjust_timecode`: add
`frame_delta` whole frames and propagate carries using `frame_rate` as the
modulus for frames and 60 for seconds and minutes. -/
def specAdjustTimecode (tc : Timecode) (frame_delta : Nat) (frame_rate : Nat) : Timecode :=
  let total : Nat := tc.frames.toNat + frame_delta
  let s : Nat := tc.seconds.toNat + total / frame_rate
  let m : Nat := tc.minutes.toNat + s / 60
  ⟨tc.hours + (m / 60 : Nat), ((m % 60 : Nat) : Int), ((s % 60 : Nat) : Int),
    ((total % frame_rate : Nat) : Int)⟩

/-- The data-model invariant for a timecode at the source's 25 fps. -/
def ValidTimecode (tc : Timecode) : Prop :=
  0 ≤ tc.hours ∧ 0 ≤ tc.minutes ∧ tc.minutes < 60 ∧
    0 ≤ tc.seconds ∧ tc.seconds < 60 ∧ 0 ≤ tc.frames ∧ tc.frames < 25

instance (tc : Timecode) : Decidable (ValidTimecode tc) := by
  unfold ValidTimecode; infer_instance

/-! ## Round-trip lemmas for digits, padding and timecodes -/

theorem charToDigit_digitToChar : ∀ d, d < 10 → charToDigit (digitToChar d) = some d := by
  decide

theorem digitToChar_toNat_bounds :
    ∀ d, d < 10 → 48 ≤ (digitToChar d).toNat ∧ (digitToChar d).toNat ≤ 57 := by
  decide

theorem mem_natDigitsAux {fuel n : Nat} {c : Char} (h : c ∈ natDigitsAux fuel n) :
    ∃ d, d < 10 ∧ c = digitToChar d := by
  induction fuel generalizing n with
  | zero => simp [natDigitsAux] at h
  | succ fuel ih =>
    unfold natDigitsAux at h
    split at h
    · next hn =>
      simp only [List.mem_singleton] at h
      exact ⟨n, hn, h⟩
    · next hn =>
      rcases List.mem_append.mp h with h1 | h2
      · exact ih h1
      · simp only [List.mem_singleton] at h2
        exact ⟨n % 10, Nat.mod_lt _ (by omega), h2⟩

theorem natToDigits_chars {n : Nat} {c : Char} (h : c ∈ natToDigits n) :
    48 ≤ c.toNat ∧ c.toNat ≤ 57 := by
  obtain ⟨d, hd, rfl⟩ := mem_natDigitsAux h
  exact digitToChar_toNat_bounds d hd

theorem pyPadZeros_chars {w n : Nat} {c : Char} (h : c ∈ pyPadZeros w n) :
    48 ≤ c.toNat ∧ c.toNat ≤ 57 := by
  rcases List.mem_append.mp h with h1 | h2
  · have h0 := List.eq_of_mem_replicate h1
    subst h0; decide
  · exact natToDigits_chars h2

theorem digit_not_space {c : Char} (h : 48 ≤ c.toNat ∧ c.toNat ≤ 57) :
    isPySpace c = false := by
  unfold isPySpace
  simp only [Bool.or_eq_false_iff, beq_eq_false_iff_ne, ne_eq]
  omega

theorem dropWhile_eq_self_of_none {p : Char → Bool} {l : List Char}
    (h : ∀ c ∈ l, p c = false) : l.dropWhile p = l := by
  cases l with
  | nil => rfl
  | cons c cs => simp [List.dropWhile_cons, h c (by simp)]

theorem pyStrip_eq_self {l : List Char} (h : ∀ c ∈ l, isPySpace c = false) :
    pyStrip l = l := by
  unfold pyStrip
  rw [dropWhile_eq_self_of_none h,
    dropWhile_eq_self_of_none (fun c hc => h c (List.mem_reverse.mp hc)),
    List.reverse_reverse]

theorem parseDigitsAux_append (l₁ l₂ : List Char) (acc : Nat) :
    parseDigitsAux (l₁ ++ l₂) acc =
      match parseDigitsAux l₁ acc with
      | some m => parseDigitsAux l₂ m
      | none => none := by
  induction l₁ generalizing acc with
  | nil => rfl
  | cons c cs ih =>
    simp only [List.cons_append, parseDigitsAux]
    cases charToDigit c with
    | none => rfl
    | some d => exact ih _

theorem natDigitsAux_ne_nil {fuel n : Nat} (h : n < fuel) : natDigitsAux fuel n ≠ [] := by
  cases fuel with
  | zero => omega
  | succ fuel =>
    unfold natDigitsAux
    split <;> simp

theorem parseDigitsAux_natDigitsAux :
    ∀ fuel n acc, n < fuel →
      parseDigitsAux (natDigitsAux fuel n) acc =
        some (acc * 10 ^ (natDigitsAux fuel n).length + n) := by
  intro fuel
  induction fuel with
  | zero => intro n acc h; omega
  | succ fuel ih =>
    intro n acc hn
    unfold natDigitsAux
    by_cases h10 : n < 10
    · rw [if_pos h10]
      simp only [parseDigitsAux, charToDigit_digitToChar n h10, List.length_singleton,
        pow_one]
    · rw [if_neg h10]
      rw [parseDigitsAux_append]
      have hdiv : n / 10 < fuel := by omega
      rw [ih (n / 10) acc hdiv]
      simp only [parseDigitsAux, charToDigit_digitToChar (n % 10) (by omega),
        List.length_append, List.length_singleton, pow_succ]
      rw [← mul_assoc]
      congr 1
      generalize acc * 10 ^ (natDigitsAux fuel (n / 10)).length = Q
      omega

theorem parseDigitsAux_zeros (k : Nat) (l : List Char) :
    parseDigitsAux (List.replicate k '0' ++ l) 0 = parseDigitsAux l 0 := by
  induction k with
  | zero => rfl
  | succ k ih =>
    simp only [List.replicate_succ, List.cons_append, parseDigitsAux]
    have h0 : charToDigit '0' = some 0 := by decide
    rw [h0]
    simpa using ih

theorem parseNatDigits_pyPadZeros (w n : Nat) : parseNatDigits (pyPadZeros w n) = some n := by
  have hne : natToDigits n ≠ [] := natDigitsAux_ne_nil (Nat.lt_succ_self n)
  cases hd : pyPadZeros w n with
  | nil =>
    exact absurd (List.append_eq_nil.mp hd).2 hne
  | cons c cs =>
    have hstep : parseNatDigits (c :: cs) = parseDigitsAux (c :: cs) 0 := rfl
    rw [hstep, ← hd]
    unfold pyPadZeros
    rw [parseDigitsAux_zeros]
    unfold natToDigits
    rw [parseDigitsAux_natDigitsAux (n + 1) n 0 (Nat.lt_succ_self n)]
    simp

theorem pyPadZeros_ne_nil (w n : Nat) : pyPadZeros w n ≠ [] := by
  intro h
  exact absurd (List.append_eq_nil.mp h).2 (natDigitsAux_ne_nil (Nat.lt_succ_self n))

theorem pyInt?_pyPadZeros (w n : Nat) : pyInt? (pyPadZeros w n) = some (n : Int) := by
  have hchars : ∀ c ∈ pyPadZeros w n, 48 ≤ c.toNat ∧ c.toNat ≤ 57 :=
    fun c hc => pyPadZeros_chars hc
  have hstrip : pyStrip (pyPadZeros w n) = pyPadZeros w n :=
    pyStrip_eq_self (fun c hc => digit_not_space (hchars c hc))
  unfold pyInt?
  rw [hstrip]
  cases hd : pyPadZeros w n with
  | nil => exact absurd hd (pyPadZeros_ne_nil w n)
  | cons c cs =>
    have hc : 48 ≤ c.toNat ∧ c.toNat ≤ 57 := hchars c (by rw [hd]; simp)
    have hc1 : c ≠ '-' := by
      intro h; rw [h] at hc; revert hc; decide
    have hc2 : c ≠ '+' := by
      intro h; rw [h] at hc; revert hc; decide
    simp only []
    rw [if_neg hc1, if_neg hc2, ← hd, parseNatDigits_pyPadZeros]
    rfl

theorem pyInt?_pyFormat02 {n : Int} (h : 0 ≤ n) : pyInt? (pyFormat02 n) = some n := by
  unfold pyFormat02
  rw [if_neg (by omega), pyInt?_pyPadZeros]
  congr 1
  exact Int.toNat_of_nonneg h

theorem pyFormat02_no_colon {n : Int} (h : 0 ≤ n) : ∀ c ∈ pyFormat02 n, c ≠ ':' := by
  unfold pyFormat02
  rw [if_neg (by omega)]
  intro c hc heq
  have hb := pyPadZeros_chars hc
  rw [heq] at hb
  revert hb; decide

theorem pySplitAux_nil (sep : Char) (acc : List Char) :
    pySplitAux sep [] acc = [acc.reverse] := rfl

theorem pySplitAux_cons (sep c : Char) (cs acc : List Char) :
    pySplitAux sep (c :: cs) acc =
      if c = sep then acc.reverse :: pySplitAux sep cs []
      else pySplitAux sep cs (c :: acc) := rfl

theorem pySplitAux_no_sep (sep : Char) (l acc : List Char) (h : ∀ c ∈ l, c ≠ sep) :
    pySplitAux sep l acc = [acc.reverse ++ l] := by
  induction l generalizing acc with
  | nil => simp [pySplitAux_nil]
  | cons c cs ih =>
    rw [pySplitAux_cons, if_neg (h c (by simp)),
      ih _ (fun x hx => h x (by simp [hx]))]
    simp

theorem pySplitAux_sep_split (sep : Char) (l₁ l₂ acc : List Char)
    (h : ∀ c ∈ l₁, c ≠ sep) :
    pySplitAux sep (l₁ ++ sep :: l₂) acc = (acc.reverse ++ l₁) :: pySplitAux sep l₂ [] := by
  induction l₁ generalizing acc with
  | nil =>
    simp only [List.nil_append]
    rw [pySplitAux_cons, if_pos rfl]
    simp
  | cons c cs ih =>
    simp only [List.cons_append]
    rw [pySplitAux_cons, if_neg (h c (by simp)),
      ih _ (fun x hx => h x (by simp [hx]))]
    simp

theorem pySplit_format4 (a b c d : List Char)
    (ha : ∀ x ∈ a, x ≠ ':') (hb : ∀ x ∈ b, x ≠ ':')
    (hc : ∀ x ∈ c, x ≠ ':') (hd : ∀ x ∈ d, x ≠ ':') :
    pySplit ':' (a ++ ':' :: (b ++ ':' :: (c ++ ':' :: d))) = [a, b, c, d] := by
  unfold pySplit
  rw [pySplitAux_sep_split ':' a _ [] ha, pySplitAux_sep_split ':' b _ [] hb,
    pySplitAux_sep_split ':' c _ [] hc, pySplitAux_no_sep ':' d [] hd]
  simp

theorem parseTimecode_formatTimecode (tc : Timecode)
    (h0 : 0 ≤ tc.hours) (h1 : 0 ≤ tc.minutes) (h2 : 0 ≤ tc.seconds) (h3 : 0 ≤ tc.frames) :
    parseTimecode (formatTimecode tc) = some tc := by
  have hdata : (formatTimecode tc).data = formatChars tc := rfl
  unfold parseTimecode
  rw [hdata]
  unfold formatChars
  rw [pySplit_format4 _ _ _ _ (pyFormat02_no_colon h0) (pyFormat02_no_colon h1)
    (pyFormat02_no_colon h2) (pyFormat02_no_colon h3)]
  simp only [pyInt?_pyFormat02 h0, pyInt?_pyFormat02 h1, pyInt?_pyFormat02 h2,
    pyInt?_pyFormat02 h3]

/-! ## Properties of adjust_timecode -/

theorem adjustFields_nonneg {tc : Timecode} (h : ValidTimecode tc) {d : Int} (hd : 0 ≤ d) :
    0 ≤ (adjustFields tc d).hours ∧ 0 ≤ (adjustFields tc d).minutes ∧
      0 ≤ (adjustFields tc d).seconds ∧ 0 ≤ (adjustFields tc d).frames := by
  obtain ⟨hh, hm1, hm2, hs1, hs2, hf1, hf2⟩ := h
  unfold adjustFields
  dsimp only
  split_ifs <;> exact ⟨by omega, by omega, by omega, by omega⟩

/-- Under the data-model invariant and a delta small enough that one
subtraction suffices, the source's single-carry arithmetic agrees with the
spec's modulus carry rule at 25 fps. -/
theorem adjustFields_eq_spec {tc : Timecode} (hv : ValidTimecode tc) {d : Nat}
    (hd : tc.frames + (d : Int) < 50) :
    adjustFields tc (d : Int) = specAdjustTimecode tc d 25 := by
  obtain ⟨hh, hm1, hm2, hs1, hs2, hf1, hf2⟩ := hv
  unfold adjustFields specAdjustTimecode
  dsimp only
  split_ifs <;>
    · simp only [Timecode.mk.injEq]
      refine ⟨by omega, by omega, by omega, by omega⟩

/-- Shared helper: on a formatted valid timecode with a single-carry
delta, adjust_timecode computes exactly the spec's carry rule at 25 fps. -/
theorem adjust_formatted_eq_spec (tc : Timecode) (hv : ValidTimecode tc) (d : Nat)
    (hd : tc.frames + (d : Int) < 50) :
    adjust_timecode (formatTimecode tc) (d : Int) =
      formatTimecode (specAdjustTimecode tc d 25) := by
  obtain ⟨hh, hm1, hm2, hs1, hs2, hf1, hf2⟩ := hv
  unfold adjust_timecode
  rw [parseTimecode_formatTimecode tc hh hm1 hs1 hf1]
  exact congrArg formatTimecode
    (adjustFields_eq_spec ⟨hh, hm1, hm2, hs1, hs2, hf1, hf2⟩ hd)

/-- C1 (counterexample): the claim's carry rule fails for deltas needing a
double carry — the source subtracts 25 at most once, so at frame rate 25
adding 50 frames to 00:00:00:00 yields the invalid timecode 00:00:01:25
instead of the claimed 00:00:02:00. -/
theorem adjust_timecode_claim_counterexample :
    adjust_timecode "00:00:00:00" 50 = "00:00:01:25" ∧
      formatTimecode (specAdjustTimecode ⟨0, 0, 0, 0⟩ 50 25) = "00:00:02:00" ∧
      adjust_timecode "00:00:00:00" 50 ≠ "00:00:02:00" := by
  refine ⟨by decide, by decide, by decide⟩

/-- C1 (amended): with the frame rate fixed at 25 (the source takes no
frame-rate argument) and a delta small enough that a single carry
suffices (tc.frames + frame_delta < 50), adjust_timecode adds frame_delta
frames to the frames field and carries overflow into seconds, then
minutes, then hours, with modulus 25 for frames and 60 for seconds and
minutes; the spec's three overflow examples are instances (delta 1). -/
theorem adjust_timecode_single_carry (tc : Timecode) (hv : ValidTimecode tc) (d : Nat)
    (hd : tc.frames + (d : Int) < 50) :
    adjust_timecode (formatTimecode tc) (d : Int) =
      formatTimecode (specAdjustTimecode tc d 25) :=
  adjust_formatted_eq_spec tc hv d hd

/-- C1 (witness): the spec's hardest overflow example, 00:59:59:24 plus
one frame at 25 fps, via the amended theorem. -/
theorem adjust_timecode_single_carry_witness :
    adjust_timecode (formatTimecode ⟨0, 59, 59, 24⟩) ((1 : Nat) : Int) =
      formatTimecode (specAdjustTimecode ⟨0, 59, 59, 24⟩ 1 25) :=
  adjust_timecode_single_carry ⟨0, 59, 59, 24⟩ (by decide) 1 (by decide)

/-- C6: for every valid timecode and every delta 0 ≤ d < 10000, parsing
the formatted string produced by adjust_timecode recovers exactly the
field values adjust computed — the format/parse round-trip holds for
every value adjust produces. -/
theorem adjust_parse_format_roundtrip (tc : Timecode) (hv : ValidTimecode tc)
    (d : Int) (hd0 : 0 ≤ d) (_hd1 : d < 10000) :
    parseTimecode (adjust_timecode (formatTimecode tc) d) = some (adjustFields tc d) := by
  obtain ⟨hh, hm1, hm2, hs1, hs2, hf1, hf2⟩ := hv
  unfold adjust_timecode
  rw [parseTimecode_formatTimecode tc hh hm1 hs1 hf1]
  obtain ⟨a1, a2, a3, a4⟩ :=
    adjustFields_nonneg ⟨hh, hm1, hm2, hs1, hs2, hf1, hf2⟩ hd0
  exact parseTimecode_formatTimecode _ a1 a2 a3 a4

/-- C6 (witness): the round-trip at 00:00:00:24 with delta 2. -/
theorem adjust_parse_format_roundtrip_witness :
    parseTimecode (adjust_timecode (formatTimecode ⟨0, 0, 0, 24⟩) 2) =
      some (adjustFields ⟨0, 0, 0, 24⟩ 2) :=
  adjust_parse_format_roundtrip ⟨0, 0, 0, 24⟩ (by decide) 2 (by decide) (by decide)

/-- C7: for every input string and every compensation value, whenever the
internal computation fails (exactly the parse failures: the string is not
four colon-separated integers), adjust_timecode returns the original
input string unmodified.  Parsing is the only fallible step of the
source's try block: the arithmetic and formatting are total. -/
theorem adjust_timecode_error_fallback (s : String) (comp : Int)
    (h : parseTimecode s = none) : adjust_timecode s comp = s := by
  unfold adjust_timecode
  rw [h]

/-- C7 (witness): an unparsable string is returned unchanged. -/
theorem adjust_timecode_error_fallback_witness :
    adjust_timecode "garbage" 7 = "garbage" :=
  adjust_timecode_error_fallback "garbage" 7 (by decide)

/-! ## The EDL serializer (generate_edl) -/

/-- A clip record as the monitor thread builds it: a dict with keys
start, end, src.  The timecode fields may hold None — the source appends
whatever get_timecode_from_hyperdeck returned. -/
structure Clip where
  start : Option String
  «end» : Option String
  src : String
deriving DecidableEq

/-- A log line emitted by generate_edl, at its level. -/
inductive LogMsg where
  | warning (msg : String)
  | info (msg : String)
deriving DecidableEq

/-- The observable outcome of generate_edl: the log lines it emits and the
lines written to the destination file (`none` when no file is opened). -/
structure EdlResult where
  logs : List LogMsg
  file : Option (List String)
deriving DecidableEq

/-- Python's f-string interpolation of a maybe-None value: None renders as
the string None. -/
def pyStr : Option String → String
  | none => "None"
  | some s => s

/-- adjust_timecode applied to a stored timecode field: a None field makes
the source's try block fail, so the original value (None) comes back. -/
def adjustOpt (tc : Option String) (comp : Int) : Option String :=
  tc.map (fun s => adjust_timecode s comp)

/-- The two lines generate_edl writes for the clip at 0-based index `i`:
the record line (1-based id zero-padded to 4 digits, fixed track tokens,
source and record timecode pairs identical) and the clip-name comment.
Compensation is applied to the local copies only when it is positive. -/
def clipLines (comp : Int) (i : Nat) (clip : Clip) : List String :=
  [(⟨pyPadZeros 4 (i + 1)⟩ : String) ++ "  AX    V     C   " ++
      pyStr (if comp > 0 then adjustOpt clip.start comp else clip.start) ++ " " ++
      pyStr (if comp > 0 then adjustOpt clip.«end» comp else clip.«end») ++ " " ++
      pyStr (if comp > 0 then adjustOpt clip.start comp else clip.start) ++ " " ++
      pyStr (if comp > 0 then adjustOpt clip.«end» comp else clip.«end»),
    "* FROM CLIP NAME: " ++ clip.src]

/-- The per-clip lines of the enumerate loop, starting at index `i`. -/
def clipRecords (comp : Int) : Nat → List Clip → List String
  | _, [] => []
  | i, c :: cs => clipLines comp i c ++ clipRecords comp (i + 1) cs

/-- generate_edl from the source.  An empty clip list logs a warning and
returns without opening the file; otherwise the header lines and the
per-clip lines are written (one list element per write call, each write
being a single newline-terminated line) and the success line is logged. -/
def generate_edl (clips : List Clip) (file_path : String)
    (compensation_frames : Int) : EdlResult :=
  match clips with
  | [] => { logs := [.warning "No cuts detected, no data to save in the EDL."], file := none }
  | _ =>
    { logs := [.info ("EDL file successfully generated: " ++ file_path)],
      file := some (["TITLE: ATEM Program Output", "FCM: NON-DROP FRAME"] ++
        clipRecords compensation_frames 0 clips) }

/-- The serialization-time shift of a clip's timecode copies by
`comp` frames; the stored clip is unchanged, a new value is built. -/
def adjustClip (comp : Int) (c : Clip) : Clip :=
  ⟨adjustOpt c.start comp, adjustOpt c.«end» comp, c.src⟩

theorem clipRecords_compensation (i : Nat) (cs : List Clip) :
    clipRecords 2 i cs = clipRecords 0 i (cs.map (adjustClip 2)) := by
  induction cs generalizing i with
  | nil => rfl
  | cons c cs ih =>
    simp only [List.map_cons, clipRecords, clipLines, adjustClip]
    rw [ih]
    norm_num

/-- C3: generating with compensation 2 equals generating with
compensation 0 over per-clip shifted copies — so the clip count and
ordering are identical and every emitted start and end timecode is the
2-frame adjust of the stored one; the stored clips are read-only inputs
(the embedding is pure, as the source only rebinds locals).  On valid
timecodes the 2-frame shift is exactly the spec's carry rule at 25 fps. -/
theorem generate_edl_compensation (clips : List Clip) (path : String) :
    generate_edl clips path 2 = generate_edl (clips.map (adjustClip 2)) path 0 ∧
      (clips.map (adjustClip 2)).length = clips.length ∧
      (∀ tc : Timecode, ValidTimecode tc →
        adjust_timecode (formatTimecode tc) ((2 : Nat) : Int) =
          formatTimecode (specAdjustTimecode tc 2 25)) := by
  refine ⟨?_, List.length_map _ _, ?_⟩
  · cases clips with
    | nil => rfl
    | cons c cs =>
      simp only [generate_edl]
      rw [clipRecords_compensation 0 (c :: cs)]
      simp
  · intro tc hv
    refine adjust_formatted_eq_spec tc hv 2 ?_
    obtain ⟨_, _, _, _, _, _, hf⟩ := hv
    omega

/-- C3 (witness): the per-timecode conjunct at 00:00:00:00. -/
theorem generate_edl_compensation_witness :
    adjust_timecode (formatTimecode ⟨0, 0, 0, 0⟩) ((2 : Nat) : Int) =
      formatTimecode (specAdjustTimecode ⟨0, 0, 0, 0⟩ 2 25) :=
  (generate_edl_compensation [] "out.edl").2.2 ⟨0, 0, 0, 0⟩ (by decide)

/-- C5: the exact file contents for one clip with compensation 0: the two
header lines, the record line with identical source and record timecode
pairs, and the clip-name comment. -/
theorem generate_edl_single_clip :
    (generate_edl [⟨some "00:00:00:00", some "00:00:05:00", "Input1"⟩] "out.edl" 0).file =
      some ["TITLE: ATEM Program Output", "FCM: NON-DROP FRAME",
        "0001  AX    V     C   00:00:00:00 00:00:05:00 00:00:00:00 00:00:05:00",
        "* FROM CLIP NAME: Input1"] := by
  decide

/-- C8: with an empty clip list, generate_edl opens no file (no write
happens) and logs exactly the no-cuts warning, for every destination path
and compensation value. -/
theorem generate_edl_empty (path : String) (comp : Int) :
    (generate_edl [] path comp).file = none ∧
      (generate_edl [] path comp).logs =
        [LogMsg.warning "No cuts detected, no data to save in the EDL."] :=
  ⟨rfl, rfl⟩

/-! ## The HyperDeck timecode client (get_timecode_from_hyperdeck) -/

/-- Python str.split on a (non-empty) multi-character separator: scan for
non-overlapping occurrences left to right, keeping empty pieces.  Fuel
keeps the recursion structural; it is always at least the list length. -/
def splitOnSubAux (sep : List Char) : Nat → List Char → List Char → List (List Char)
  | 0, s, acc => [acc.reverse ++ s]
  | fuel + 1, s, acc =>
    match s with
    | [] => [acc.reverse]
    | c :: cs =>
      if sep.isPrefixOf (c :: cs) then
        acc.reverse :: splitOnSubAux sep fuel (cs.drop (sep.length - 1)) []
      else splitOnSubAux sep fuel cs (c :: acc)

/-- Python str.split(sep) for a multi-character separator. -/
def pySplitStr (sep l : List Char) : List (List Char) :=
  splitOnSubAux sep (l.length + 1) l []

/-- The value pulled out of a matched line:
line.split("display timecode:")[1].strip().  The index-1 access is
guarded in the source by the startswith check, which guarantees at least
two pieces. -/
def extractValue (line : List Char) : List Char :=
  pyStrip ((pySplitStr ("display timecode:".data) line).getD 1 [])

/-- The response-scanning loop of the source: return the extracted value
of the first line starting with the display-timecode marker; if no line
matches, the status lines are only printed and the function falls through
to None. -/
def findDisplayTimecode : List (List Char) → Option (List Char)
  | [] => none
  | l :: ls =>
    if ("display timecode:".data).isPrefixOf l then some (extractValue l)
    else findDisplayTimecode ls

/-- get_timecode_from_hyperdeck from the source.  The argument is the
decoded response text accumulated by the recv loop, or `none` when an I/O
error occurred during send or receive (the except branch); both the
no-match fall-through and the error path produce None. -/
def get_timecode_from_hyperdeck (response : Option String) : Option String :=
  match response with
  | none => none
  | some resp =>
    (findDisplayTimecode (pySplit '\n' resp.data)).map (fun l => (⟨l⟩ : String))

theorem findDisplayTimecode_eq_find? (ls : List (List Char)) :
    findDisplayTimecode ls =
      (ls.find? (fun l => ("display timecode:".data).isPrefixOf l)).map extractValue := by
  induction ls with
  | nil => rfl
  | cons l ls ih =>
    by_cases h : ("display timecode:".data).isPrefixOf l
    · rw [List.find?_cons_of_pos _ h]
      unfold findDisplayTimecode
      rw [if_pos h]
      rfl
    · rw [List.find?_cons_of_neg _ (by simp [h])]
      unfold findDisplayTimecode
      rw [if_neg (by simp [h]), ih]

/-- C4: get_timecode_from_hyperdeck never raises.  If some response line
starts with the display-timecode marker, the first such line's value is
returned; if no line does (in particular a response carrying only a
status field, such as status: stopped), the result is None; and an I/O
error during send or receive also yields None. -/
theorem get_timecode_from_hyperdeck_spec :
    (∀ resp l,
        (pySplit '\n' resp.data).find?
            (fun l0 => ("display timecode:".data).isPrefixOf l0) = some l →
        get_timecode_from_hyperdeck (some resp) = some (⟨extractValue l⟩ : String)) ∧
      (∀ resp : String,
        (∀ l ∈ pySplit '\n' resp.data, ("display timecode:".data).isPrefixOf l = false) →
        get_timecode_from_hyperdeck (some resp) = none) ∧
      get_timecode_from_hyperdeck (some "status: stopped") = none ∧
      get_timecode_from_hyperdeck none = none := by
  refine ⟨?_, ?_, by decide, rfl⟩
  · intro resp l h
    unfold get_timecode_from_hyperdeck
    dsimp only
    rw [findDisplayTimecode_eq_find?, h]
    rfl
  · intro resp h
    unfold get_timecode_from_hyperdeck
    dsimp only
    rw [findDisplayTimecode_eq_find?,
      List.find?_eq_none.mpr (fun x hx => by simp [h x hx])]
    rfl

/-- C4 (witness): a recording-state response yields its display
timecode. -/
theorem get_timecode_from_hyperdeck_spec_witness :
    get_timecode_from_hyperdeck (some "status: record\ndisplay timecode: 00:11:22:12") =
      some "00:11:22:12" := by
  have h := get_timecode_from_hyperdeck_spec.1
    "status: record\ndisplay timecode: 00:11:22:12"
    ("display timecode: 00:11:22:12".data) (by decide)
  have he : (⟨extractValue ("display timecode: 00:11:22:12".data)⟩ : String) =
      "00:11:22:12" := by decide
  rw [he] at h
  exact h

/-! ## The monitor loop (ATEMMonitorThread.run)

Each poll tick is modelled by the pair (program input as its string, the
value returned by get_timecode_from_hyperdeck on that tick).  The loop
body's Qt signal emissions become an event list; iterations whose ATEM
read raises are outside the model (they emit nothing and change no
state). -/

/-- A Qt signal emission of the monitor thread. -/
inductive Event where
  | inputChanged (input : String)
  | timecodeUpdated (timecode : String)
  | clipCompleted (src : String) (start finish : Option String)
deriving DecidableEq

/-- Python truthiness of a maybe-string: None and the empty string are
falsy. -/
def truthy : Option String → Bool
  | none => false
  | some s => !s.isEmpty

/-- The loop's mutable locals: last_program_input, last_timecode (set only
at an input change), the timecode variable of the current iteration, and
the accumulated clips list. -/
structure MonState where
  lastInput : Option String
  lastTimecode : Option String
  timecodeVar : Option String
  clips : List Clip
deriving DecidableEq

/-- The state at loop entry. -/
def initMonState : MonState := ⟨none, none, none, []⟩

/-- One iteration of the while loop, fed the tick's sampled input and deck
timecode: emit the input signal, emit the timecode signal when the
timecode is truthy, and on an input change append a finalized clip (only
when a previous input exists and the pending timecode is truthy) before
re-seating the pending pair.  The log signal is declared
pyqtSignal(str, str, str), so when the appending tick's own timecode is
None the emit raises TypeError — swallowed by the loop's except — after
the append but before the re-seat: the clip is kept, no clip-completed
event is published, and last_program_input/last_timecode stay unchanged. -/
def monitorStep (st : MonState) (input : String) (tc : Option String) :
    MonState × List Event :=
  let evs := Event.inputChanged input ::
    (match tc with
      | some s => if s.isEmpty then [] else [Event.timecodeUpdated s]
      | none => [])
  if some input = st.lastInput then
    ({ st with timecodeVar := tc }, evs)
  else
    match st.lastInput, truthy st.lastTimecode with
    | some prev, true =>
      match tc with
      | some _ =>
        ({ lastInput := some input, lastTimecode := tc, timecodeVar := tc,
           clips := st.clips ++ [⟨st.lastTimecode, tc, prev⟩] },
          evs ++ [Event.clipCompleted prev st.lastTimecode tc])
      | none =>
        ({ lastInput := st.lastInput, lastTimecode := st.lastTimecode, timecodeVar := tc,
           clips := st.clips ++ [⟨st.lastTimecode, tc, prev⟩] }, evs)
    | _, _ =>
      ({ lastInput := some input, lastTimecode := tc, timecodeVar := tc,
         clips := st.clips }, evs)

/-- The while loop over a finite sample sequence, collecting every emitted
event in order. -/
def monitorRun : MonState → List (String × Option String) → MonState × List Event
  | st, [] => (st, [])
  | st, (i, tc) :: rest =>
    let step := monitorStep st i tc
    let next := monitorRun step.1 rest
    (next.1, step.2 ++ next.2)

/-- The after-loop finalization: append one trailing clip from the pending
pair, ending at the last sampled timecode, under the same guard as the
in-loop append. -/
def monitorFinal (st : MonState) : List Clip :=
  match st.lastInput, truthy st.lastTimecode with
  | some prev, true => st.clips ++ [⟨st.lastTimecode, st.timecodeVar, prev⟩]
  | _, _ => st.clips

/-- The clips the session holds after the loop consumed the samples and
the stop signal fired. -/
def monitorClips (samples : List (String × Option String)) : List Clip :=
  monitorFinal (monitorRun initMonState samples).1

/-- All events emitted while the loop consumed the samples. -/
def monitorEvents (samples : List (String × Option String)) : List Event :=
  (monitorRun initMonState samples).2

/-- Recognizer for timecode-updated events. -/
def isTimecodeUpdated : Event → Bool
  | .timecodeUpdated _ => true
  | _ => false

/-- Recognizer for clip-completed events. -/
def isClipCompleted : Event → Bool
  | .clipCompleted .. => true
  | _ => false

/-- C2: the spec's sample sequence followed by a stop produces exactly the
three clips (A, 00:00:00:00, 00:00:02:00), (B, 00:00:02:00, 00:00:04:00)
and the zero-duration trailing clip (C, 00:00:04:00, 00:00:04:00), in
that order: each edge finalizes the pending clip at the change's timecode
and the stop finalizes the trailing clip at the last sampled timecode. -/
theorem monitor_sample_run :
    monitorClips
        [("A", some "00:00:00:00"), ("A", some "00:00:01:00"),
          ("B", some "00:00:02:00"), ("B", some "00:00:03:00"),
          ("C", some "00:00:04:00")] =
      [⟨some "00:00:00:00", some "00:00:02:00", "A"⟩,
        ⟨some "00:00:02:00", some "00:00:04:00", "B"⟩,
        ⟨some "00:00:04:00", some "00:00:04:00", "C"⟩] := by
  decide

/-- C9 (counterexample): on an iteration whose deck query returned None,
only the input-changed event is emitted — no timecode-updated event —
refuting the claim that both events are published on every iteration. -/
theorem monitor_events_missing_timecode :
    monitorEvents [("A", none)] = [Event.inputChanged "A"] ∧
      (monitorEvents [("A", none)]).any isTimecodeUpdated = false := by
  decide

/-- C9 (amended): every iteration publishes the input-changed event; the
timecode-updated event is published exactly on iterations whose deck
query returned a truthy (non-None, non-empty) timecode; the
clip-completed event is published exactly on iterations where the input
changed, a pending input with truthy pending timecode existed, and the
tick's own deck query returned a timecode — when it returned None the
str-typed signal's emit raises TypeError, swallowed by the loop's except,
so no clip-completed event goes out. -/
theorem monitor_events_per_tick (st : MonState) (i : String) (tc : Option String) :
    Event.inputChanged i ∈ (monitorStep st i tc).2 ∧
      ((monitorStep st i tc).2.any isTimecodeUpdated = truthy tc) ∧
      ((monitorStep st i tc).2.any isClipCompleted = true ↔
        (¬ some i = st.lastInput ∧ st.lastInput ≠ none ∧
          truthy st.lastTimecode = true ∧ tc ≠ none)) := by
  unfold monitorStep
  by_cases hch : some i = st.lastInput
  · rw [if_pos hch]
    cases tc with
    | none =>
      exact ⟨by simp, by simp [truthy, isTimecodeUpdated],
        by simp [isClipCompleted, hch]⟩
    | some s =>
      by_cases he : s.isEmpty
      · exact ⟨by simp, by simp [he, truthy, isTimecodeUpdated],
          by simp [he, isClipCompleted, hch]⟩
      · exact ⟨by simp, by simp [he, truthy, isTimecodeUpdated],
          by simp [he, isClipCompleted, hch]⟩
  · rw [if_neg hch]
    cases hL : st.lastInput with
    | none =>
      cases tc with
      | none =>
        exact ⟨by simp, by simp [truthy, isTimecodeUpdated],
          by simp [isClipCompleted]⟩
      | some s =>
        by_cases he : s.isEmpty
        · exact ⟨by simp, by simp [he, truthy, isTimecodeUpdated],
            by simp [he, isClipCompleted]⟩
        · exact ⟨by simp, by simp [he, truthy, isTimecodeUpdated],
            by simp [he, isClipCompleted]⟩
    | some prev =>
      rw [hL] at hch
      cases hT : truthy st.lastTimecode with
      | false =>
        cases tc with
        | none =>
          exact ⟨by simp, by simp [truthy, isTimecodeUpdated],
            by simp [isClipCompleted]⟩
        | some s =>
          by_cases he : s.isEmpty
          · exact ⟨by simp, by simp [he, truthy, isTimecodeUpdated],
              by simp [he, isClipCompleted]⟩
          · exact ⟨by simp, by simp [he, truthy, isTimecodeUpdated],
              by simp [he, isClipCompleted]⟩
      | true =>
        cases tc with
        | none =>
          exact ⟨by simp, by simp [truthy, isTimecodeUpdated, isClipCompleted],
            by simp [isClipCompleted, hch]⟩
        | some s =>
          by_cases he : s.isEmpty
          · exact ⟨by simp, by simp [he, truthy, isTimecodeUpdated, isClipCompleted],
              by simp [he, isClipCompleted, hch]⟩
          · exact ⟨by simp, by simp [he, truthy, isTimecodeUpdated, isClipCompleted],
              by simp [he, isClipCompleted, hch]⟩

/-- C10: a loop iteration appends a clip only if a previous input was
seen and the pending timecode recorded at that input's first tick is
non-None (in fact truthy), and the appended clip ends at the current
tick's timecode, which may itself be None; consequently an interval whose
starting tick's deck query returned None is silently dropped at the next
edge, while an edge hit on a None-returning tick appends a clip with end
= None — and, because the emit's TypeError then skips the re-seat of the
pending pair, the stop's finalization appends that clip a second time. -/
theorem monitor_clip_append_only_if :
    (∀ st : MonState, ∀ i tc, (monitorStep st i tc).1.clips ≠ st.clips →
      st.lastInput ≠ none ∧ st.lastTimecode ≠ none ∧
        (monitorStep st i tc).1.clips =
          st.clips ++ [⟨st.lastTimecode, tc, st.lastInput.getD ""⟩]) ∧
      monitorClips [("A", none), ("B", some "00:00:02:00"), ("C", some "00:00:03:00")] =
        [⟨some "00:00:02:00", some "00:00:03:00", "B"⟩,
          ⟨some "00:00:03:00", some "00:00:03:00", "C"⟩] ∧
      monitorClips [("A", some "00:00:01:00"), ("B", none)] =
        [⟨some "00:00:01:00", none, "A"⟩, ⟨some "00:00:01:00", none, "A"⟩] := by
  refine ⟨?_, by decide, by decide⟩
  intro st i tc hne
  unfold monitorStep at hne ⊢
  by_cases hch : some i = st.lastInput
  · rw [if_pos hch] at hne
    exact absurd rfl hne
  · rw [if_neg hch] at hne ⊢
    cases hL : st.lastInput with
    | none =>
      rw [hL] at hne
      cases hT : truthy st.lastTimecode with
      | false => rw [hT] at hne; simp at hne
      | true => rw [hT] at hne; simp at hne
    | some prev =>
      rw [hL] at hne
      cases hT : truthy st.lastTimecode with
      | false => rw [hT] at hne; simp at hne
      | true =>
        refine ⟨by simp, ?_, ?_⟩
        · intro hP
          rw [hP] at hT
          simp [truthy] at hT
        · cases tc <;> simp

/-- C10 (witness): an edge whose own deck query returned None appends a
clip ending at None. -/
theorem monitor_clip_append_only_if_witness :
    (monitorStep ⟨some "A", some "00:00:01:00", some "00:00:01:00", []⟩ "B" none).1.clips =
      [] ++ [⟨some "00:00:01:00", none, "A"⟩] :=
  (monitor_clip_append_only_if.1
    ⟨some "A", some "00:00:01:00", some "00:00:01:00", []⟩ "B" none (by decide)).2.2

end ATEMLogger
